import Mathlib

/-!
Verification of the engagement-based segment selection engine
(`engagement_scorer.py`) and the analysis orchestrator
(`analysis_pipeline.py`).

Numeric conventions of the shallow embedding: Python floats holding
time-like quantities (timestamps, durations, intervals) are modelled as
rationals `ℚ`; score-like quantities are modelled as reals `ℝ` because the
`zscore` normalization branch uses the standard deviation (a square root)
and a logistic squash (an exponential).  Python `int(x)` is truncation
toward zero; Python `//` is floor division; Python list slicing clamps
out-of-range bounds.  A Python `try/except` handler that returns a fallback
value is modelled by returning that value on the branch that would raise.
-/

namespace Processo

/-- Python `int(x)` on a rational: truncation toward zero. -/
def ratTrunc (x : ℚ) : ℤ :=
  if 0 ≤ x then ⌊x⌋ else ⌈x⌉

/-- Elementwise `np.clip(x, 0, 1)`. -/
noncomputable def clip01 (x : ℝ) : ℝ :=
  min (max x 0) 1

/-- Arithmetic mean `np.mean` of a list (0 on the empty list, which the
code never hits on the paths modelled here without a guard). -/
noncomputable def npMean (l : List ℝ) : ℝ :=
  l.sum / l.length

/-- Minimum of a list, `np.min` (meaningful on non-empty lists). -/
def listMin : List ℝ → ℝ
  | [] => 0
  | x :: xs => xs.foldl min x

/-- Maximum of a list, `np.max` (meaningful on non-empty lists). -/
def listMax : List ℝ → ℝ
  | [] => 0
  | x :: xs => xs.foldl max x

/-- Population standard deviation `np.std`: square root of the mean of the
squared deviations from the mean. -/
noncomputable def npStd (l : List ℝ) : ℝ :=
  Real.sqrt (npMean (l.map (fun x => (x - npMean l) ^ 2)))

/-- Logistic squash `1 / (1 + exp (-x))`. -/
noncomputable def sigmoid (x : ℝ) : ℝ :=
  1 / (1 + Real.exp (-x))

/-- Percentile with linear interpolation, `np.percentile(l, q)`
(default interpolation mode); meaningful on non-empty lists. -/
noncomputable def npPercentile (l : List ℝ) (q : ℝ) : ℝ :=
  let s := l.mergeSort (fun a b => decide (a ≤ b))
  let pos : ℝ := ((l.length : ℝ) - 1) * q / 100
  let vlo := s.getD (⌊pos⌋).toNat 0
  let vhi := s.getD (⌈pos⌉).toNat 0
  vlo + (pos - (⌊pos⌋ : ℝ)) * (vhi - vlo)

/-- Number of elements of Python `range(0, stop, step)` for `step > 0`. -/
def pyRangeLen (stop step : ℤ) : ℕ :=
  if 0 < stop then ((stop - 1).fdiv step + 1).toNat else 0

/-- Python `range(0, stop, step)` for `step > 0`. -/
def pyRange (stop step : ℤ) : List ℤ :=
  (List.range (pyRangeLen stop step)).map (fun k => (k : ℤ) * step)

/-- Python slice `l[a:b]` with its clamping semantics (negative indices
count from the end, out-of-range bounds are clamped). -/
def pySlice (l : List ℝ) (a b : ℤ) : List ℝ :=
  let n : ℤ := l.length
  let a' : ℤ := if a < 0 then max (n + a) 0 else min a n
  let b' : ℤ := if b < 0 then max (n + b) 0 else min b n
  (l.drop a'.toNat).take (b' - a').toNat

/-- Configuration dictionary of `EngagementScorer.__init__`
(`engagement_scorer.py` lines 50-61), as a record. -/
structure EngagementConfig where
  weight_audio : ℝ
  weight_visual : ℝ
  weight_speech : ℝ
  segment_duration : ℚ
  min_separation : ℚ
  overlap_penalty : ℝ
  distribution_bonus : ℝ
  normalization_method : String

/-- Default configuration of the scorer (weights 0.4/0.3/0.3, duration 60,
separation 30, penalty 0.5, bonus 0.1, method minmax). -/
noncomputable def defaultEngagementConfig : EngagementConfig :=
  ⟨0.4, 0.3, 0.3, 60, 30, 0.5, 0.1, "minmax"⟩

/-- The `VideoSegment` dataclass of `engagement_scorer.py`. -/
structure VideoSegment where
  start_time : ℚ
  end_time : ℚ
  duration : ℚ
  audio_score : ℝ
  visual_score : ℝ
  speech_score : ℝ
  combined_score : ℝ
  rank : ℕ
  keywords : String

/-- The `minmax` branch of `normalize_scores` (also the fallback for an
unknown method, which recurses with `minmax`): rescale by observed min/max,
all-equal input degrades to a constant 0.5; final `np.clip` to [0,1]. -/
noncomputable def minmaxNormalize (scores : List ℝ) : List ℝ :=
  let mn := listMin scores
  let mx := listMax scores
  if mx = mn then List.replicate scores.length (1 / 2)
  else scores.map (fun x => clip01 ((x - mn) / (mx - mn)))

/-- `EngagementScorer.normalize_scores` (`engagement_scorer.py` 65-127):
normalizes a timeline to [0,1] by the method named by `method`. -/
noncomputable def normalize_scores (scores : List ℝ) (method : String) : List ℝ :=
  if scores = [] then []
  else if method = "minmax" then
    minmaxNormalize scores
  else if method = "zscore" then
    let mean_val := npMean scores
    let std_val := npStd scores
    if std_val = 0 then List.replicate scores.length (1 / 2)
    else scores.map (fun x => clip01 (sigmoid ((x - mean_val) / std_val)))
  else if method = "robust" then
    let q25 := npPercentile scores 25
    let q75 := npPercentile scores 75
    if q75 = q25 then List.replicate scores.length (1 / 2)
    else scores.map (fun x => clip01 (clip01 ((x - q25) / (q75 - q25))))
  else
    minmaxNormalize scores

/-- `EngagementScorer.combine_scores` (`engagement_scorer.py` 129-182):
truncate the three timelines to the shortest, normalize each, then take the
pointwise weighted sum. -/
noncomputable def combine_scores (cfg : EngagementConfig)
    (audio_scores visual_scores speech_scores : List ℝ) : List ℝ :=
  let min_length := min audio_scores.length (min visual_scores.length speech_scores.length)
  if min_length = 0 then []
  else
    let audio_norm := normalize_scores (audio_scores.take min_length) cfg.normalization_method
    let visual_norm := normalize_scores (visual_scores.take min_length) cfg.normalization_method
    let speech_norm := normalize_scores (speech_scores.take min_length) cfg.normalization_method
    (List.range min_length).map (fun i =>
      audio_norm.getD i 0 * cfg.weight_audio +
      visual_norm.getD i 0 * cfg.weight_visual +
      speech_norm.getD i 0 * cfg.weight_speech)

/-- `EngagementScorer.create_segments_from_timeline` (`engagement_scorer.py`
184-236).  `segment_points = int(segment_duration / interval_seconds)`;
window start indices are `range(0, len - segment_points + 1,
segment_points // 2)`.  A zero interval raises `ZeroDivisionError` and a
zero stride raises `ValueError` in `range`; both are caught by the
surrounding handler, which returns `[]`; a negative stride makes the
`range` empty.  The `if end_idx > len: break` guard is the `takeWhile`. -/
noncomputable def create_segments_from_timeline (cfg : EngagementConfig)
    (combined_scores : List ℝ) (interval_seconds : ℚ) : List VideoSegment :=
  if interval_seconds = 0 then []
  else
    let segment_points : ℤ := ratTrunc (cfg.segment_duration / interval_seconds)
    let step : ℤ := segment_points.fdiv 2
    if step ≤ 0 then []
    else
      let n : ℤ := combined_scores.length
      let idxs := pyRange (n - segment_points + 1) step
      (idxs.takeWhile (fun s => decide (s + segment_points ≤ n))).map (fun (s : ℤ) =>
        { start_time := (s : ℚ) * interval_seconds
          end_time := ((s + segment_points : ℤ) : ℚ) * interval_seconds
          duration := ((s + segment_points : ℤ) : ℚ) * interval_seconds - (s : ℚ) * interval_seconds
          audio_score := 0
          visual_score := 0
          speech_score := 0
          combined_score := npMean (pySlice combined_scores s (s + segment_points))
          rank := 0
          keywords := "" })

/-- Per-segment update of `EngagementScorer.calculate_segment_scores`
(`engagement_scorer.py` 260-275): slice each raw timeline over the
segment's index range (`start_idx = int(start_time / interval)`, likewise
`end_idx`), guarded by `start_idx < len(timeline)`; the per-modality score
is the mean of the slice, or 0.0 when the slice is empty
(`np.mean(seg) if seg else 0.0`). -/
noncomputable def modalityScore (timeline : List ℝ) (start_idx end_idx : ℤ) : ℝ :=
  let sliced := if start_idx < (timeline.length : ℤ) then pySlice timeline start_idx end_idx else []
  if sliced = [] then 0 else npMean sliced

/-- Record update performed on one segment by `calculate_segment_scores`. -/
noncomputable def update_segment_scores (audio_scores visual_scores speech_scores : List ℝ)
    (interval_seconds : ℚ) (seg : VideoSegment) : VideoSegment :=
  let start_idx : ℤ := ratTrunc (seg.start_time / interval_seconds)
  let end_idx : ℤ := ratTrunc (seg.end_time / interval_seconds)
  { seg with
    audio_score := modalityScore audio_scores start_idx end_idx
    visual_score := modalityScore visual_scores start_idx end_idx
    speech_score := modalityScore speech_scores start_idx end_idx }

/-- `EngagementScorer.calculate_segment_scores` (`engagement_scorer.py`
238-281).  A zero interval raises `ZeroDivisionError` before any segment is
updated; the handler returns the input list unchanged. -/
noncomputable def calculate_segment_scores (segments : List VideoSegment)
    (audio_scores visual_scores speech_scores : List ℝ)
    (interval_seconds : ℚ) : List VideoSegment :=
  if interval_seconds = 0 then segments
  else segments.map (update_segment_scores audio_scores visual_scores speech_scores interval_seconds)

/-- Too-close test of `apply_separation_penalty` (`engagement_scorer.py`
302-315): the candidate is within `min_separation` of some already selected
segment, measured as `min(|cand.start - sel.end|, |sel.start - cand.end|)`. -/
def tooClose (min_separation : ℚ) (candidate : VideoSegment)
    (selected : List VideoSegment) : Bool :=
  selected.any (fun sel =>
    decide (min |candidate.start_time - sel.end_time| |sel.start_time - candidate.end_time|
      < min_separation))

/-- Loop of `apply_separation_penalty` over the score-sorted candidates,
carrying the list of already accepted (selected) segments: an accepted
candidate is appended to the selected list unchanged; a rejected one gets
`combined_score *= overlap_penalty` in place. -/
noncomputable def apply_separation_penalty_aux (min_separation : ℚ) (penalty : ℝ) :
    List VideoSegment → List VideoSegment → List VideoSegment
  | _, [] => []
  | selected, c :: rest =>
    if tooClose min_separation c selected then
      { c with combined_score := c.combined_score * penalty } ::
        apply_separation_penalty_aux min_separation penalty selected rest
    else
      c :: apply_separation_penalty_aux min_separation penalty (selected ++ [c]) rest

/-- Python `sorted(segments, key=lambda x: x.combined_score, reverse=True)`:
stable sort, descending by combined score. -/
noncomputable def sortByScoreDesc (segments : List VideoSegment) : List VideoSegment :=
  segments.mergeSort (fun a b => decide (b.combined_score ≤ a.combined_score))

/-- `EngagementScorer.apply_separation_penalty` (`engagement_scorer.py`
283-328): sort by score descending, then walk the sorted list applying the
penalty to candidates too close to an already accepted one; the full sorted
list is returned. -/
noncomputable def apply_separation_penalty (cfg : EngagementConfig)
    (segments : List VideoSegment) : List VideoSegment :=
  apply_separation_penalty_aux cfg.min_separation cfg.overlap_penalty [] (sortByScoreDesc segments)

/-- Section (bucket) of a timestamp: `int(t / section_duration)` in
`apply_distribution_bonus`. -/
def sectionIndex (section_duration : ℚ) (t : ℚ) : ℤ :=
  ratTrunc (t / section_duration)

/-- Per-segment update of `EngagementScorer.apply_distribution_bonus`
(`engagement_scorer.py` 330-366).  The video is divided into 5 sections of width
`total_duration / 5`; each segment's section is `min(int(start /
section_width), 4)`; the bonus `distribution_bonus / (number of segments
whose raw section index equals it)` is added to `combined_score` when that
number is positive.  A zero total duration raises `ZeroDivisionError` on
the first segment, before any mutation; the handler returns the list
unchanged. -/
def sectionOf (section_duration : ℚ) (seg : VideoSegment) : ℤ :=
  min (sectionIndex section_duration seg.start_time) 4

/-- Count of `apply_distribution_bonus`: how many segments of the list have
raw section index equal to the given segment's (clamped) section. -/
def segmentsInSection (section_duration : ℚ) (segments : List VideoSegment)
    (seg : VideoSegment) : ℕ :=
  (segments.filter (fun s =>
    decide (sectionIndex section_duration s.start_time = sectionOf section_duration seg))).length

/-- Score update applied to one segment by `apply_distribution_bonus`. -/
noncomputable def distributionBonusUpdate (bonus : ℝ) (section_duration : ℚ)
    (segments : List VideoSegment) (seg : VideoSegment) : VideoSegment :=
  if 0 < segmentsInSection section_duration segments seg then
    { seg with combined_score :=
        seg.combined_score + bonus / (segmentsInSection section_duration segments seg : ℝ) }
  else seg

/-- `EngagementScorer.apply_distribution_bonus`, assembled from the
per-segment update above. -/
noncomputable def apply_distribution_bonus (cfg : EngagementConfig)
    (segments : List VideoSegment) (total_duration : ℚ) : List VideoSegment :=
  if total_duration = 0 then segments
  else segments.map (distributionBonusUpdate cfg.distribution_bonus (total_duration / 5) segments)

/-- Rank assignment of `get_best_segments` (`engagement_scorer.py` 424-425):
the i-th segment of the quality-ordered selection gets rank `i + 1`. -/
def assignRanks (segments : List VideoSegment) : List VideoSegment :=
  segments.enum.map (fun p => { p.2 with rank := p.1 + 1 })

/-- Python `best_segments.sort(key=lambda x: x.start_time)`: stable sort,
ascending by start time. -/
noncomputable def sortByStartAsc (segments : List VideoSegment) : List VideoSegment :=
  segments.mergeSort (fun a b => decide (a.start_time ≤ b.start_time))

/-- Body of `EngagementScorer.get_best_segments` after the config update
(`engagement_scorer.py` 397-437): combine, generate candidates, per-segment
scores, separation penalty, distribution bonus (only when `total_duration`
is truthy, i.e. present and nonzero), sort by score, take `count`, assign
ranks, re-sort chronologically. -/
noncomputable def get_best_segments_core (cfg : EngagementConfig)
    (audio_scores visual_scores speech_scores : List ℝ) (count : ℕ)
    (total_duration : Option ℚ) (interval_seconds : ℚ) : List VideoSegment :=
  let combined := combine_scores cfg audio_scores visual_scores speech_scores
  if combined = [] then []
  else
    let segments := create_segments_from_timeline cfg combined interval_seconds
    let segments := calculate_segment_scores segments audio_scores visual_scores speech_scores
      interval_seconds
    let segments := apply_separation_penalty cfg segments
    let segments :=
      match total_duration with
      | some td => if td = 0 then segments else apply_distribution_bonus cfg segments td
      | none => segments
    let best := (sortByScoreDesc segments).take count
    sortByStartAsc (assignRanks best)

/-- `EngagementScorer.get_best_segments` (`engagement_scorer.py` 368-441)
with the scorer's config state made explicit: the method first writes
`self.config['segment_duration'] = duration` (line 395) and then runs the
pipeline; the pair returned is (selected segments, config after the call). -/
noncomputable def get_best_segments (cfg : EngagementConfig)
    (audio_scores visual_scores speech_scores : List ℝ) (duration : ℚ) (count : ℕ)
    (total_duration : Option ℚ) (interval_seconds : ℚ) : List VideoSegment × EngagementConfig :=
  let cfg' := { cfg with segment_duration := duration }
  (get_best_segments_core cfg' audio_scores visual_scores speech_scores count total_duration
    interval_seconds, cfg')

/-- One modality's entry in the aggregate result of
`AnalysisPipeline.run_parallel_analysis`: a timeline and a summary record
(the summary's shape is opaque to the orchestrator, hence a type
parameter). -/
structure ModalityEntry (σ : Type) where
  timeline : List ℝ
  summary : σ

/-- Aggregate result of `AnalysisPipeline.run_parallel_analysis`
(`analysis_pipeline.py` 369-446): one entry per modality plus metadata
(modelled by the video path recorded in it). -/
structure AnalysisResults (σ : Type) where
  audioResult : ModalityEntry σ
  visualResult : ModalityEntry σ
  speechResult : ModalityEntry σ
  metadataVideoPath : String

/-- One `try/except` collection block of `run_parallel_analysis`
(`analysis_pipeline.py` 394-427): a successful future yields its
`(timeline, summary)`; a raised failure is logged and recorded as
`{'timeline': [], 'summary': {}}`. -/
def collectModality {σ : Type} (emptySummary : σ) :
    Except String (List ℝ × σ) → ModalityEntry σ
  | .ok (tl, sm) => ⟨tl, sm⟩
  | .error _ => ⟨[], emptySummary⟩

/-- `AnalysisPipeline.run_parallel_analysis` (`analysis_pipeline.py`
369-446), with each submitted future's outcome (normal value or raised
exception) passed in as an `Except`: the three results are collected with
per-modality failure isolation and the metadata is attached; the function
is total — no outcome makes it raise. -/
def run_parallel_analysis {σ : Type} (emptySummary : σ) (video_path : String)
    (audioOutcome visualOutcome speechOutcome : Except String (List ℝ × σ)) :
    AnalysisResults σ :=
  { audioResult := collectModality emptySummary audioOutcome
    visualResult := collectModality emptySummary visualOutcome
    speechResult := collectModality emptySummary speechOutcome
    metadataVideoPath := video_path }

/-- Fallback branch of `AnalysisPipeline._generate_cache_key`
(`analysis_pipeline.py` 80-82): when `os.stat` fails the key is
`f"{analysis_type}_{int(time.time())}"` — the modality name and the
current wall-clock time truncated to whole seconds. -/
def fallbackCacheKey (analysis_type : String) (now : ℚ) : String :=
  analysis_type ++ "_" ++ toString (ratTrunc now)

/-- The three modality names `run_parallel_analysis` analyzes with
(`analysis_pipeline.py` lines 183, 254, 321). -/
def modalityNames : List String :=
  ["audio", "visual", "speech"]

/-- Elementwise relation established by the separation-penalty step: the
output segment is the corresponding score-sorted input segment with every
field unchanged, except that `combined_score` is either untouched
(accepted) or multiplied once by the penalty factor (rejected). -/
def sepPenaltyRel (penalty : ℝ) (out orig : VideoSegment) : Prop :=
  out.start_time = orig.start_time ∧ out.end_time = orig.end_time ∧
  out.duration = orig.duration ∧ out.audio_score = orig.audio_score ∧
  out.visual_score = orig.visual_score ∧ out.speech_score = orig.speech_score ∧
  out.rank = orig.rank ∧ out.keywords = orig.keywords ∧
  (out.combined_score = orig.combined_score ∨
    out.combined_score = orig.combined_score * penalty)

/-- Behaviour of one modality score computed by `calculate_segment_scores`
for the index range `[start_idx, end_idx)`: zero when the start index is at
or past the end of the timeline, zero when the index range is empty, and
otherwise the mean of the timeline over the range clipped to the timeline's
length (a partial slice is averaged, not zeroed). -/
def segmentScoreSpec (timeline : List ℝ) (start_idx end_idx : ℤ) (score : ℝ) : Prop :=
  ((timeline.length : ℤ) ≤ start_idx → score = 0) ∧
  (0 ≤ end_idx → end_idx ≤ start_idx → score = 0) ∧
  (0 ≤ start_idx → start_idx < (timeline.length : ℤ) → start_idx < end_idx →
    score = npMean ((timeline.drop start_idx.toNat).take
      (min end_idx.toNat timeline.length - start_idx.toNat)))

/-- Per-segment relation established by `calculate_segment_scores`: the
three modality scores obey `segmentScoreSpec` for the segment's index
range, and the segment's time fields are untouched. -/
def segmentUpdateSpec (audio_scores visual_scores speech_scores : List ℝ)
    (interval_seconds : ℚ) (seg out : VideoSegment) : Prop :=
  out.start_time = seg.start_time ∧ out.end_time = seg.end_time ∧
  segmentScoreSpec audio_scores (ratTrunc (seg.start_time / interval_seconds))
    (ratTrunc (seg.end_time / interval_seconds)) out.audio_score ∧
  segmentScoreSpec visual_scores (ratTrunc (seg.start_time / interval_seconds))
    (ratTrunc (seg.end_time / interval_seconds)) out.visual_score ∧
  segmentScoreSpec speech_scores (ratTrunc (seg.start_time / interval_seconds))
    (ratTrunc (seg.end_time / interval_seconds)) out.speech_score

/-- A segment spanning seconds 0-2, used as a concrete input: its index
range over a one-second timeline of length 1 runs past the end. -/
def c3seg : VideoSegment :=
  ⟨0, 2, 2, 0, 0, 0, 0, 0, ""⟩

/-- A segment starting at time 0 with combined score 0, used as a concrete
input to the distribution bonus. -/
def c7seg : VideoSegment :=
  ⟨0, 60, 60, 0, 0, 0, 0, 0, ""⟩

/-- Result of one distribution-bonus pass over the singleton list
`[c7seg]` with total duration 5. -/
noncomputable def c7seg1 : VideoSegment :=
  { c7seg with combined_score :=
      c7seg.combined_score + defaultEngagementConfig.distribution_bonus / ((1 : ℕ) : ℝ) }

/-- C2: if exactly one of the three modality analyses raises inside
`run_parallel_analysis`, the call still returns normally (the collection is
total), the failed modality's entry is `{timeline: [], summary: {}}`, and
the other two modalities' entries carry their full results — for each of
the three choices of failing modality. -/
theorem run_parallel_analysis_single_failure_isolated :
    ∀ (σ : Type) (emptySummary : σ) (video_path msg : String)
      (tlv tls : List ℝ) (sv ss : σ),
      (run_parallel_analysis emptySummary video_path (.error msg) (.ok (tlv, sv))
          (.ok (tls, ss)) =
        ⟨⟨[], emptySummary⟩, ⟨tlv, sv⟩, ⟨tls, ss⟩, video_path⟩) ∧
      (run_parallel_analysis emptySummary video_path (.ok (tlv, sv)) (.error msg)
          (.ok (tls, ss)) =
        ⟨⟨tlv, sv⟩, ⟨[], emptySummary⟩, ⟨tls, ss⟩, video_path⟩) ∧
      (run_parallel_analysis emptySummary video_path (.ok (tlv, sv)) (.ok (tls, ss))
          (.error msg) =
        ⟨⟨tlv, sv⟩, ⟨tls, ss⟩, ⟨[], emptySummary⟩, video_path⟩) := by
  intro σ e p m tlv tls sv ss
  exact ⟨rfl, rfl, rfl⟩

/-- C8 (amended): one call to `get_best_segments` leaves every
configuration entry unchanged except `segment_duration`, which it
overwrites with the `duration` argument (line 395 of
`engagement_scorer.py`); the config is therefore not read-only. -/
theorem get_best_segments_config_effect :
    ∀ (cfg : EngagementConfig) (audio_scores visual_scores speech_scores : List ℝ)
      (duration : ℚ) (count : ℕ) (total_duration : Option ℚ) (interval_seconds : ℚ),
      (get_best_segments cfg audio_scores visual_scores speech_scores duration count
          total_duration interval_seconds).2.segment_duration = duration ∧
      (get_best_segments cfg audio_scores visual_scores speech_scores duration count
          total_duration interval_seconds).2.weight_audio = cfg.weight_audio ∧
      (get_best_segments cfg audio_scores visual_scores speech_scores duration count
          total_duration interval_seconds).2.weight_visual = cfg.weight_visual ∧
      (get_best_segments cfg audio_scores visual_scores speech_scores duration count
          total_duration interval_seconds).2.weight_speech = cfg.weight_speech ∧
      (get_best_segments cfg audio_scores visual_scores speech_scores duration count
          total_duration interval_seconds).2.min_separation = cfg.min_separation ∧
      (get_best_segments cfg audio_scores visual_scores speech_scores duration count
          total_duration interval_seconds).2.overlap_penalty = cfg.overlap_penalty ∧
      (get_best_segments cfg audio_scores visual_scores speech_scores duration count
          total_duration interval_seconds).2.distribution_bonus = cfg.distribution_bonus ∧
      (get_best_segments cfg audio_scores visual_scores speech_scores duration count
          total_duration interval_seconds).2.normalization_method = cfg.normalization_method := by
  intro cfg audio_scores visual_scores speech_scores duration count total_duration itv
  exact ⟨rfl, rfl, rfl, rfl, rfl, rfl, rfl, rfl⟩

/-- C8 counterexample: calling the scorer with `duration = 30` on the
default configuration (whose `segment_duration` is 60) leaves the
configuration changed after the call, refuting that the config is
read-only for the duration of one call. -/
theorem get_best_segments_mutates_config :
    (get_best_segments defaultEngagementConfig [] [] [] 30 7 none 1).2 ≠
      defaultEngagementConfig := by
  intro h
  have h2 : (30 : ℚ) = 60 := congrArg EngagementConfig.segment_duration h
  norm_num at h2

/-- Strings with distinct first characters stay distinct after appending
arbitrary suffixes. -/
theorem append_ne_of_head_ne (c₁ c₂ : Char) (p₁ p₂ s₁ s₂ : String)
    (h₁ : p₁.data.head? = some c₁) (h₂ : p₂.data.head? = some c₂) (hc : c₁ ≠ c₂) :
    p₁ ++ s₁ ≠ p₂ ++ s₂ := by
  intro h
  have hd := congrArg String.data h
  rw [String.data_append, String.data_append] at hd
  cases hp₁ : p₁.data with
  | nil => rw [hp₁] at h₁; exact Option.noConfusion h₁
  | cons a t₁ =>
    cases hp₂ : p₂.data with
    | nil => rw [hp₂] at h₂; exact Option.noConfusion h₂
    | cons bb t₂ =>
      rw [hp₁] at h₁ hd
      rw [hp₂] at h₂ hd
      simp only [List.head?_cons, Option.some.injEq] at h₁ h₂
      rw [List.cons_append, List.cons_append] at hd
      exact hc (h₁ ▸ h₂ ▸ (List.cons.injEq a _ bb _ ▸ hd).1)

/-- Evaluation rule for `ratTrunc` on a non-negative value. -/
theorem ratTrunc_nonneg_eq (x : ℚ) (z : ℤ) (h0 : 0 ≤ x) (h1 : (z : ℚ) ≤ x)
    (h2 : x < z + 1) : ratTrunc x = z := by
  rw [ratTrunc, if_pos h0]
  exact Int.floor_eq_iff.mpr ⟨by exact_mod_cast h1, by exact_mod_cast h2⟩

/-- C9 (amended): the fallback cache key is a deterministic function of
the modality name and the wall-clock time truncated to whole seconds;
keys of distinct modalities never collide, but two fallback invocations
with the same modality in the same second produce the same key, so a cache
miss is not guaranteed. -/
theorem fallback_cache_key_spec :
    ∀ (t₁ t₂ : ℚ) (m₁ m₂ : String), m₁ ∈ modalityNames → m₂ ∈ modalityNames →
      (m₁ = m₂ → ratTrunc t₁ = ratTrunc t₂ →
        fallbackCacheKey m₁ t₁ = fallbackCacheKey m₂ t₂) ∧
      (m₁ ≠ m₂ → fallbackCacheKey m₁ t₁ ≠ fallbackCacheKey m₂ t₂) := by
  intro t₁ t₂ m₁ m₂ h₁ h₂
  constructor
  · intro hm ht
    subst hm
    unfold fallbackCacheKey
    rw [ht]
  · intro hne
    simp only [modalityNames, List.mem_cons, List.not_mem_nil, or_false] at h₁ h₂
    unfold fallbackCacheKey
    rcases h₁ with rfl | rfl | rfl <;> rcases h₂ with rfl | rfl | rfl <;>
      first
        | exact absurd rfl hne
        | exact append_ne_of_head_ne 'a' 'v' _ _ _ _ (by decide) (by decide) (by decide)
        | exact append_ne_of_head_ne 'a' 's' _ _ _ _ (by decide) (by decide) (by decide)
        | exact append_ne_of_head_ne 'v' 'a' _ _ _ _ (by decide) (by decide) (by decide)
        | exact append_ne_of_head_ne 'v' 's' _ _ _ _ (by decide) (by decide) (by decide)
        | exact append_ne_of_head_ne 's' 'a' _ _ _ _ (by decide) (by decide) (by decide)
        | exact append_ne_of_head_ne 's' 'v' _ _ _ _ (by decide) (by decide) (by decide)

/-- C9 witness: concrete instances of both parts of the fallback-key
specification — equal keys for the audio modality at two times in the same
second, distinct keys for distinct modalities. -/
theorem fallback_cache_key_spec_witness :
    (fallbackCacheKey "audio" (1 / 2) = fallbackCacheKey "audio" (3 / 4)) ∧
    (fallbackCacheKey "audio" 5 ≠ fallbackCacheKey "visual" 5) := by
  constructor
  · refine (fallback_cache_key_spec (1 / 2) (3 / 4) "audio" "audio"
      (by simp [modalityNames]) (by simp [modalityNames])).1 rfl ?_
    rw [ratTrunc_nonneg_eq (1 / 2) 0 (by norm_num) (by norm_num) (by norm_num),
      ratTrunc_nonneg_eq (3 / 4) 0 (by norm_num) (by norm_num) (by norm_num)]
  · exact (fallback_cache_key_spec 5 5 "audio" "visual"
      (by simp [modalityNames]) (by simp [modalityNames])).2 (by decide)

/-- C9 counterexample: two fallback invocations at the distinct times 0.1s
and 0.9s generate the same cache key, refuting that any two fallback
invocations produce different fingerprints (so the subsequent lookup is not
guaranteed to miss). -/
theorem fallback_cache_key_collision :
    (1 / 10 : ℚ) ≠ 9 / 10 ∧
      fallbackCacheKey "audio" (1 / 10) = fallbackCacheKey "audio" (9 / 10) := by
  constructor
  · norm_num
  · unfold fallbackCacheKey
    rw [ratTrunc_nonneg_eq (1 / 10) 0 (by norm_num) (by norm_num) (by norm_num),
      ratTrunc_nonneg_eq (9 / 10) 0 (by norm_num) (by norm_num) (by norm_num)]

/-- Distribution-bonus update never changes a segment's start time. -/
theorem distributionBonusUpdate_start_time (b : ℝ) (sd : ℚ) (l : List VideoSegment)
    (x : VideoSegment) : (distributionBonusUpdate b sd l x).start_time = x.start_time := by
  unfold distributionBonusUpdate
  split <;> rfl

/-- The section count only depends on the start times of the list and of
the segment. -/
theorem segmentsInSection_congr (sd : ℚ) {l₁ l₂ : List VideoSegment}
    (h : l₁.map VideoSegment.start_time = l₂.map VideoSegment.start_time)
    {x₁ x₂ : VideoSegment} (hx : x₁.start_time = x₂.start_time) :
    segmentsInSection sd l₁ x₁ = segmentsInSection sd l₂ x₂ := by
  unfold segmentsInSection sectionOf
  rw [hx]
  have key : ∀ (m : List VideoSegment) (sec : ℤ),
      (m.filter (fun s => decide (sectionIndex sd s.start_time = sec))).length =
        (m.map VideoSegment.start_time).countP (fun t => decide (sectionIndex sd t = sec)) := by
    intro m sec
    rw [List.countP_map, ← List.countP_eq_length_filter]
    rfl
  rw [key, key, h]

/-- One pass of the distribution bonus preserves the start times of the
list. -/
theorem map_start_time_distributionBonusUpdate (b : ℝ) (sd : ℚ) (l : List VideoSegment) :
    (l.map (distributionBonusUpdate b sd l)).map VideoSegment.start_time =
      l.map VideoSegment.start_time := by
  rw [List.map_map]
  apply List.map_congr_left
  intro x _
  exact distributionBonusUpdate_start_time b sd l x

/-- Composing the distribution-bonus update with itself adds the same
per-segment bonus twice, which is one application with the bonus doubled. -/
theorem distributionBonusUpdate_twice (b : ℝ) (sd : ℚ) (l : List VideoSegment)
    (seg : VideoSegment) :
    distributionBonusUpdate b sd (l.map (distributionBonusUpdate b sd l))
      (distributionBonusUpdate b sd l seg) =
    distributionBonusUpdate (2 * b) sd l seg := by
  have hcnt : segmentsInSection sd (l.map (distributionBonusUpdate b sd l))
      (distributionBonusUpdate b sd l seg) = segmentsInSection sd l seg :=
    segmentsInSection_congr sd (map_start_time_distributionBonusUpdate b sd l)
      (distributionBonusUpdate_start_time b sd l seg)
  by_cases hpos : 0 < segmentsInSection sd l seg
  · have hinner : distributionBonusUpdate b sd l seg =
        { seg with combined_score :=
            seg.combined_score + b / (segmentsInSection sd l seg : ℝ) } := by
      unfold distributionBonusUpdate
      rw [if_pos hpos]
    rw [distributionBonusUpdate, hcnt, if_pos hpos, hinner,
      distributionBonusUpdate, if_pos hpos]
    simp only [VideoSegment.mk.injEq, and_true, true_and]
    ring
  · have hinner : distributionBonusUpdate b sd l seg = seg := by
      unfold distributionBonusUpdate
      rw [if_neg hpos]
    rw [distributionBonusUpdate, hcnt, if_neg hpos, hinner,
      distributionBonusUpdate, if_neg hpos]

/-- C7 (amended): the distribution bonus is additive, not idempotent —
applying `apply_distribution_bonus` twice adds the same per-candidate bonus
a second time (bucket membership and counts are unchanged because start
times are immutable), which equals one application with the bonus doubled. -/
theorem apply_distribution_bonus_twice :
    ∀ (cfg : EngagementConfig) (segments : List VideoSegment) (total_duration : ℚ),
      apply_distribution_bonus cfg (apply_distribution_bonus cfg segments total_duration)
          total_duration =
        apply_distribution_bonus
          { cfg with distribution_bonus := 2 * cfg.distribution_bonus }
          segments total_duration := by
  intro cfg l total
  by_cases h : total = 0
  · simp [apply_distribution_bonus, h]
  · simp only [apply_distribution_bonus, if_neg h]
    rw [List.map_map]
    apply List.map_congr_left
    intro seg _
    exact distributionBonusUpdate_twice cfg.distribution_bonus (total / 5) l seg

/-- C7 counterexample: on a single candidate starting at time 0 with
combined score 0 and total duration 5, one application of the distribution
bonus yields score 0.1, a second application yields 0.2 — repeated
application is not idempotent. -/
theorem apply_distribution_bonus_not_idempotent :
    (apply_distribution_bonus defaultEngagementConfig
        (apply_distribution_bonus defaultEngagementConfig [c7seg] 5) 5).map
      (fun s => s.combined_score) ≠
    (apply_distribution_bonus defaultEngagementConfig [c7seg] 5).map
      (fun s => s.combined_score) := by
  have hsec0 : sectionIndex ((5 : ℚ) / 5) 0 = 0 := by
    unfold sectionIndex
    exact ratTrunc_nonneg_eq _ 0 (by norm_num) (by norm_num) (by norm_num)
  have hsec1 : sectionIndex (1 : ℚ) 0 = 0 := by
    unfold sectionIndex
    exact ratTrunc_nonneg_eq _ 0 (by norm_num) (by norm_num) (by norm_num)
  have hmin : (min (0 : ℤ) 4) = 0 := by decide
  have hc : ∀ y : VideoSegment, y.start_time = 0 →
      segmentsInSection ((5 : ℚ) / 5) [y] y = 1 := by
    intro y hy
    unfold segmentsInSection sectionOf
    rw [hy, hsec0, hmin]
    simp [List.filter_cons, hy, hsec0, hsec1]
  have five_ne : (5 : ℚ) ≠ 0 := by norm_num
  have h1 : apply_distribution_bonus defaultEngagementConfig [c7seg] 5 = [c7seg1] := by
    simp only [apply_distribution_bonus, if_neg five_ne, List.map_cons, List.map_nil]
    rw [distributionBonusUpdate, hc c7seg rfl, if_pos (by norm_num : (0 : ℕ) < 1)]
    rfl
  rw [h1]
  simp only [apply_distribution_bonus, if_neg five_ne, List.map_cons, List.map_nil]
  rw [distributionBonusUpdate, hc c7seg1 rfl, if_pos (by norm_num : (0 : ℕ) < 1)]
  intro h
  have h2 : ({ c7seg1 with combined_score := c7seg1.combined_score +
      defaultEngagementConfig.distribution_bonus / ((1 : ℕ) : ℝ) } :
        VideoSegment).combined_score = c7seg1.combined_score := by
    injection h
  norm_num [c7seg1, c7seg, defaultEngagementConfig] at h2

/-- The separation-penalty loop relates its output elementwise to the
sorted input it walks, whatever the accumulated selected list is. -/
theorem apply_separation_penalty_aux_rel (min_separation : ℚ) (penalty : ℝ) :
    ∀ (l selected : List VideoSegment),
      List.Forall₂ (sepPenaltyRel penalty)
        (apply_separation_penalty_aux min_separation penalty selected l) l := by
  intro l
  induction l with
  | nil => intro selected; exact List.Forall₂.nil
  | cons c rest ih =>
    intro selected
    rw [apply_separation_penalty_aux]
    split
    · exact List.Forall₂.cons ⟨rfl, rfl, rfl, rfl, rfl, rfl, rfl, rfl, Or.inr rfl⟩ (ih _)
    · exact List.Forall₂.cons ⟨rfl, rfl, rfl, rfl, rfl, rfl, rfl, rfl, Or.inl rfl⟩ (ih _)

/-- C4: `apply_separation_penalty` removes no candidate: its output is
elementwise the score-sorted input (itself a permutation of the input),
with every field unchanged except that `combined_score` is multiplied at
most once by the overlap penalty factor, and the output has the input's
cardinality. -/
theorem apply_separation_penalty_preserves_candidates :
    ∀ (cfg : EngagementConfig) (segments : List VideoSegment),
      List.Forall₂ (sepPenaltyRel cfg.overlap_penalty)
        (apply_separation_penalty cfg segments) (sortByScoreDesc segments) ∧
      (sortByScoreDesc segments).Perm segments ∧
      (apply_separation_penalty cfg segments).length = segments.length := by
  intro cfg segments
  refine ⟨apply_separation_penalty_aux_rel _ _ _ _, List.mergeSort_perm segments _, ?_⟩
  have h := (apply_separation_penalty_aux_rel cfg.min_separation cfg.overlap_penalty
    (sortByScoreDesc segments) []).length_eq
  rw [apply_separation_penalty, h]
  exact (List.mergeSort_perm segments _).length_eq

/-- Clipped values are non-negative. -/
theorem clip01_nonneg (x : ℝ) : 0 ≤ clip01 x :=
  le_min (le_max_right x 0) (by norm_num)

/-- Clipped values are at most one. -/
theorem clip01_le_one (x : ℝ) : clip01 x ≤ 1 :=
  min_le_right _ _

/-- Mapping any function through the final clip lands in the unit
interval. -/
theorem forall_bounds_map_clip (l : List ℝ) (f : ℝ → ℝ) :
    (l.map (fun x => clip01 (f x))).Forall (fun v => 0 ≤ v ∧ v ≤ 1) := by
  rw [List.forall_iff_forall_mem]
  intro v hv
  rw [List.mem_map] at hv
  obtain ⟨x, _, rfl⟩ := hv
  exact ⟨clip01_nonneg _, clip01_le_one _⟩

/-- The constant 0.5 sequence lies in the unit interval. -/
theorem forall_bounds_replicate (n : ℕ) :
    (List.replicate n (1 / 2 : ℝ)).Forall (fun v => 0 ≤ v ∧ v ≤ 1) := by
  rw [List.forall_iff_forall_mem]
  intro v hv
  rw [List.eq_of_mem_replicate hv]
  norm_num

/-- Every branch of `normalize_scores` returns values in `[0, 1]`. -/
theorem normalize_scores_forall_bounds (scores : List ℝ) (method : String) :
    (normalize_scores scores method).Forall (fun v => 0 ≤ v ∧ v ≤ 1) := by
  simp only [normalize_scores, minmaxNormalize]
  repeat' split
  all_goals
    first
      | trivial
      | exact forall_bounds_replicate _
      | exact forall_bounds_map_clip _ _

/-- Folding `min` over copies of the seed keeps the seed. -/
theorem foldl_min_replicate (c : ℝ) : ∀ m : ℕ, (List.replicate m c).foldl min c = c := by
  intro m
  induction m with
  | zero => rfl
  | succ k ih => rw [List.replicate_succ, List.foldl_cons, min_self]; exact ih

/-- Folding `max` over copies of the seed keeps the seed. -/
theorem foldl_max_replicate (c : ℝ) : ∀ m : ℕ, (List.replicate m c).foldl max c = c := by
  intro m
  induction m with
  | zero => rfl
  | succ k ih => rw [List.replicate_succ, List.foldl_cons, max_self]; exact ih

/-- Minimum of a constant list. -/
theorem listMin_replicate (n : ℕ) (c : ℝ) (h : n ≠ 0) :
    listMin (List.replicate n c) = c := by
  cases n with
  | zero => exact absurd rfl h
  | succ m =>
    rw [List.replicate_succ]
    show (List.replicate m c).foldl min c = c
    exact foldl_min_replicate c m

/-- Maximum of a constant list. -/
theorem listMax_replicate (n : ℕ) (c : ℝ) (h : n ≠ 0) :
    listMax (List.replicate n c) = c := by
  cases n with
  | zero => exact absurd rfl h
  | succ m =>
    rw [List.replicate_succ]
    show (List.replicate m c).foldl max c = c
    exact foldl_max_replicate c m

/-- Mean of a constant list. -/
theorem npMean_replicate (n : ℕ) (c : ℝ) (h : n ≠ 0) :
    npMean (List.replicate n c) = c := by
  unfold npMean
  rw [List.sum_replicate, List.length_replicate, nsmul_eq_mul]
  have hn : (n : ℝ) ≠ 0 := Nat.cast_ne_zero.mpr h
  field_simp

/-- Standard deviation of a constant list is zero. -/
theorem npStd_replicate (n : ℕ) (c : ℝ) (h : n ≠ 0) :
    npStd (List.replicate n c) = 0 := by
  unfold npStd
  rw [npMean_replicate n c h, List.map_replicate]
  have hz : (c - c) ^ 2 = (0 : ℝ) := by ring
  rw [hz, npMean_replicate n 0 h, Real.sqrt_zero]

/-- Sorting a constant list is the identity. -/
theorem mergeSort_replicate (n : ℕ) (c : ℝ) (le : ℝ → ℝ → Bool) :
    (List.replicate n c).mergeSort le = List.replicate n c :=
  List.perm_replicate.mp (List.mergeSort_perm (List.replicate n c) le)

/-- In-range lookup in a constant list. -/
theorem getD_replicate_lt (n i : ℕ) (c : ℝ) (h : i < n) :
    (List.replicate n c).getD i 0 = c := by
  rw [List.getD_eq_getElem?_getD, List.getElem?_replicate, if_pos h]
  rfl

/-- Any percentile of a constant list is the constant. -/
theorem npPercentile_replicate (n : ℕ) (c : ℝ) (q : ℝ) (h : n ≠ 0)
    (_hq0 : 0 ≤ q) (hq1 : q ≤ 100) : npPercentile (List.replicate n c) q = c := by
  simp only [npPercentile]
  rw [mergeSort_replicate, List.length_replicate]
  have h1 : (1 : ℝ) ≤ (n : ℝ) := by exact_mod_cast Nat.one_le_iff_ne_zero.mpr h
  have hposle : ((n : ℝ) - 1) * q / 100 ≤ (n : ℝ) - 1 := by
    rw [div_le_iff₀ (by norm_num : (0 : ℝ) < 100)]
    exact mul_le_mul_of_nonneg_left hq1 (by linarith)
  have hcast : ⌊((n : ℝ) - 1)⌋ = (n : ℤ) - 1 := by
    rw [show ((n : ℝ) - 1) = (((n : ℤ) - 1 : ℤ) : ℝ) from by push_cast; ring,
      Int.floor_intCast]
  have hcastc : ⌈((n : ℝ) - 1)⌉ = (n : ℤ) - 1 := by
    rw [show ((n : ℝ) - 1) = (((n : ℤ) - 1 : ℤ) : ℝ) from by push_cast; ring,
      Int.ceil_intCast]
  have hlo : (⌊((n : ℝ) - 1) * q / 100⌋).toNat < n := by
    have h2 : ⌊((n : ℝ) - 1) * q / 100⌋ ≤ ⌊((n : ℝ) - 1)⌋ := Int.floor_le_floor hposle
    rw [hcast] at h2
    have h3 : n ≠ 0 := h
    omega
  have hhi : (⌈((n : ℝ) - 1) * q / 100⌉).toNat < n := by
    have h2 : ⌈((n : ℝ) - 1) * q / 100⌉ ≤ ⌈((n : ℝ) - 1)⌉ := Int.ceil_le_ceil hposle
    rw [hcastc] at h2
    have h3 : n ≠ 0 := h
    omega
  rw [getD_replicate_lt n _ c hlo, getD_replicate_lt n _ c hhi]
  ring

/-- The minmax branch on a constant list returns the constant 0.5
sequence. -/
theorem minmaxNormalize_replicate (n : ℕ) (c : ℝ) (h : n ≠ 0) :
    minmaxNormalize (List.replicate n c) = List.replicate n (1 / 2 : ℝ) := by
  simp only [minmaxNormalize]
  rw [listMin_replicate n c h, listMax_replicate n c h, if_pos rfl, List.length_replicate]

/-- Every method maps a degenerate (constant) timeline to the constant 0.5
sequence of the same length. -/
theorem normalize_scores_replicate (n : ℕ) (c : ℝ) (method : String) :
    normalize_scores (List.replicate n c) method = List.replicate n (1 / 2 : ℝ) := by
  cases n with
  | zero => simp [normalize_scores]
  | succ m =>
    have hne : List.replicate (m + 1) c ≠ [] := by simp
    have hn : (m + 1) ≠ 0 := Nat.succ_ne_zero m
    simp only [normalize_scores]
    rw [if_neg hne]
    by_cases h1 : method = "minmax"
    · rw [if_pos h1, minmaxNormalize_replicate _ _ hn]
    · rw [if_neg h1]
      by_cases h2 : method = "zscore"
      · rw [if_pos h2, npStd_replicate _ _ hn, if_pos rfl, List.length_replicate]
      · rw [if_neg h2]
        by_cases h3 : method = "robust"
        · rw [if_pos h3,
            npPercentile_replicate _ _ _ hn (by norm_num) (by norm_num),
            npPercentile_replicate _ _ _ hn (by norm_num) (by norm_num),
            if_pos rfl, List.length_replicate]
        · rw [if_neg h3, minmaxNormalize_replicate _ _ hn]

/-- C5: for every timeline and every method name (the three known ones and
any unknown name, which falls back to minmax), all values returned by
`normalize_scores` lie in `[0, 1]`; and a degenerate timeline (all values
equal, i.e. a replicate) is mapped to the constant 0.5 sequence of the
same length. -/
theorem normalize_scores_range :
    ∀ method : String,
      (∀ scores : List ℝ,
        (normalize_scores scores method).Forall (fun v => 0 ≤ v ∧ v ≤ 1)) ∧
      (∀ (n : ℕ) (c : ℝ),
        normalize_scores (List.replicate n c) method = List.replicate n (1 / 2 : ℝ)) := by
  intro method
  exact ⟨fun scores => normalize_scores_forall_bounds scores method,
    fun n c => normalize_scores_replicate n c method⟩

/-- Truncation of an integer value is the identity. -/
theorem ratTrunc_intCast (k : ℤ) : ratTrunc (k : ℚ) = k := by
  unfold ratTrunc
  split
  · exact Int.floor_intCast k
  · exact Int.ceil_intCast k

/-- C6 (amended): every generated candidate has
`duration = endTime - startTime = int(segmentDuration / interval) * interval`
(the window length in samples is obtained by `int(...)` truncation, not
rounding); the duration equals `segmentDuration` exactly when the interval
divides the configured duration. -/
theorem create_segments_duration_spec :
    ∀ (cfg : EngagementConfig) (combined_scores : List ℝ) (interval_seconds : ℚ),
      (create_segments_from_timeline cfg combined_scores interval_seconds).Forall (fun seg =>
        seg.duration = seg.end_time - seg.start_time ∧
        seg.duration =
          (ratTrunc (cfg.segment_duration / interval_seconds) : ℚ) * interval_seconds ∧
        ∀ k : ℤ, cfg.segment_duration = (k : ℚ) * interval_seconds →
          seg.duration = cfg.segment_duration) := by
  intro cfg l itv
  by_cases h0 : itv = 0
  · rw [create_segments_from_timeline, if_pos h0]
    trivial
  · simp only [create_segments_from_timeline]
    rw [if_neg h0]
    split
    · trivial
    · rw [List.forall_iff_forall_mem]
      intro seg hseg
      rw [List.mem_map] at hseg
      obtain ⟨s, _, rfl⟩ := hseg
      refine ⟨rfl, by push_cast; ring, ?_⟩
      intro k hk
      rw [hk]
      have hsp : ratTrunc ((k : ℚ) * itv / itv) = k := by
        rw [mul_div_cancel_right₀ _ h0, ratTrunc_intCast]
      show ((s + ratTrunc ((k : ℚ) * itv / itv) : ℤ) : ℚ) * itv - (s : ℚ) * itv =
        (k : ℚ) * itv
      rw [hsp]
      push_cast
      ring

/-- C6 counterexample: with the default configuration
(`segment_duration = 60`) and an interval of 7 seconds on a timeline of 8
samples, the single generated candidate has duration
`int(60/7) * 7 = 56 ≠ 60`, refuting that every candidate's duration equals
`segmentDurationSeconds` (and that the window uses `round`, which would
give 9 samples). -/
theorem create_segments_duration_ne_sixty :
    ¬ (∀ seg ∈ create_segments_from_timeline defaultEngagementConfig
        (List.replicate 8 (1 : ℝ)) 7, seg.duration = defaultEngagementConfig.segment_duration) := by
  intro hall
  have htr : ratTrunc ((60 : ℚ) / 7) = 8 :=
    ratTrunc_nonneg_eq _ 8 (by norm_num) (by norm_num) (by norm_num)
  have hL : (create_segments_from_timeline defaultEngagementConfig
      (List.replicate 8 (1 : ℝ)) 7).map (fun s => s.duration) = [56] := by
    simp only [create_segments_from_timeline, List.length_replicate]
    rw [if_neg (by norm_num : (7 : ℚ) ≠ 0)]
    rw [show defaultEngagementConfig.segment_duration = (60 : ℚ) from rfl, htr]
    rw [show ((8 : ℤ).fdiv 2) = 4 from by decide]
    rw [if_neg (by decide : ¬ (4 : ℤ) ≤ 0)]
    rw [show (((8 : ℕ) : ℤ)) = (8 : ℤ) from by norm_num]
    rw [show ((8 : ℤ) - 8 + 1) = 1 from by decide]
    rw [show pyRange 1 4 = [0] from by decide]
    simp [List.takeWhile_cons]
    norm_num
  have h3 : (create_segments_from_timeline defaultEngagementConfig
      (List.replicate 8 (1 : ℝ)) 7).map (fun s => s.duration) =
      (create_segments_from_timeline defaultEngagementConfig
        (List.replicate 8 (1 : ℝ)) 7).map (fun _ => (60 : ℚ)) :=
    List.map_congr_left (fun s hs => hall s hs)
  rw [hL, List.map_const'] at h3
  have hlen : (create_segments_from_timeline defaultEngagementConfig
      (List.replicate 8 (1 : ℝ)) 7).length = 1 := by
    have := congrArg List.length hL
    simpa using this
  rw [hlen] at h3
  norm_num [List.replicate] at h3

/-- The per-modality score of `calculate_segment_scores` satisfies its
specification: zero for an empty extracted slice (in particular when the
start index is at or past the timeline's end), the mean of the clipped
index range otherwise. -/
theorem modalityScore_spec (timeline : List ℝ) (si ei : ℤ) :
    segmentScoreSpec timeline si ei (modalityScore timeline si ei) := by
  simp only [segmentScoreSpec, modalityScore]
  refine ⟨?_, ?_, ?_⟩
  · intro hlen
    rw [if_neg (not_lt.mpr hlen), if_pos rfl]
  · intro he0 heis
    by_cases hs : si < (timeline.length : ℤ)
    · rw [if_pos hs]
      have h0si : (0 : ℤ) ≤ si := le_trans he0 heis
      have hempty : pySlice timeline si ei = [] := by
        simp only [pySlice]
        rw [if_neg (not_lt.mpr h0si), if_neg (not_lt.mpr he0)]
        have hz : (min ei (timeline.length : ℤ) - min si (timeline.length : ℤ)).toNat = 0 := by
          have := min_le_min heis (le_refl (timeline.length : ℤ))
          omega
        rw [hz, List.take_zero]
      rw [hempty, if_pos rfl]
    · rw [if_neg hs, if_pos rfl]
  · intro h0 hsl hse
    rw [if_pos hsl]
    have hslice : pySlice timeline si ei =
        (timeline.drop si.toNat).take (min ei.toNat timeline.length - si.toNat) := by
      simp only [pySlice]
      have he0 : (0 : ℤ) ≤ ei := le_trans h0 (le_of_lt hse)
      rw [if_neg (not_lt.mpr h0), if_neg (not_lt.mpr he0)]
      have h1 : min si (timeline.length : ℤ) = si := min_eq_left (le_of_lt hsl)
      rw [h1]
      congr 1
      omega
    rw [hslice]
    have hne : (timeline.drop si.toNat).take (min ei.toNat timeline.length - si.toNat) ≠ [] := by
      intro hempty
      have hlen2 := congrArg List.length hempty
      rw [List.length_take, List.length_drop, List.length_nil] at hlen2
      omega
    rw [if_neg hne]

/-- C3 (amended): with a nonzero interval, `calculate_segment_scores`
relates input to output elementwise: the time fields are untouched and
each modality score follows `segmentScoreSpec` — zero when the start index
is at or past the timeline's end (or the range is empty), and otherwise
the mean of the raw timeline over the index range clipped to the
timeline's length, so a candidate whose end index merely exceeds the
length gets the mean of the available part, not 0.0. -/
theorem calculate_segment_scores_spec :
    ∀ (audio_scores visual_scores speech_scores : List ℝ) (interval_seconds : ℚ)
      (segments : List VideoSegment), interval_seconds ≠ 0 →
      List.Forall₂
        (segmentUpdateSpec audio_scores visual_scores speech_scores interval_seconds)
        segments
        (calculate_segment_scores segments audio_scores visual_scores speech_scores
          interval_seconds) := by
  intro a v s itv segs h0
  rw [calculate_segment_scores, if_neg h0, List.forall₂_map_right_iff, List.forall₂_same]
  intro x _
  exact ⟨rfl, rfl, modalityScore_spec _ _ _, modalityScore_spec _ _ _,
    modalityScore_spec _ _ _⟩

/-- C3 witness: the specification applied to the concrete segment 0-2s,
the one-sample audio timeline `[1]`, empty visual and speech timelines and
a one-second interval. -/
theorem calculate_segment_scores_spec_witness :
    List.Forall₂ (segmentUpdateSpec [(1 : ℝ)] [] [] 1) [c3seg]
      (calculate_segment_scores [c3seg] [(1 : ℝ)] [] [] 1) :=
  calculate_segment_scores_spec [(1 : ℝ)] [] [] 1 [c3seg] (by norm_num)

/-- C3 counterexample: the segment 0-2s over the one-sample audio timeline
`[1]` has end index 2 exceeding the timeline length 1, yet its recomputed
audio score is the partial-slice mean 1.0, not 0.0. -/
theorem calculate_segment_scores_partial_slice_not_zero :
    (([(1 : ℝ)].length : ℤ) < ratTrunc (c3seg.end_time / 1)) ∧
    ¬ (∀ out ∈ calculate_segment_scores [c3seg] [(1 : ℝ)] [] [] 1,
        out.audio_score = 0) := by
  have hei : ratTrunc (c3seg.end_time / 1) = 2 := by
    rw [show c3seg.end_time = (2 : ℚ) from rfl]
    exact ratTrunc_nonneg_eq _ 2 (by norm_num) (by norm_num) (by norm_num)
  constructor
  · rw [hei]
    norm_num
  · intro hall
    have hmem : update_segment_scores [(1 : ℝ)] [] [] 1 c3seg ∈
        calculate_segment_scores [c3seg] [(1 : ℝ)] [] [] 1 := by
      rw [calculate_segment_scores, if_neg (by norm_num : (1 : ℚ) ≠ 0)]
      simp
    have h1 := hall _ hmem
    have h2 : (update_segment_scores [(1 : ℝ)] [] [] 1 c3seg).audio_score =
        modalityScore [(1 : ℝ)] (ratTrunc (c3seg.start_time / 1))
          (ratTrunc (c3seg.end_time / 1)) := rfl
    have hsi : ratTrunc (c3seg.start_time / 1) = 0 := by
      rw [show c3seg.start_time = (0 : ℚ) from rfl]
      exact ratTrunc_nonneg_eq _ 0 (by norm_num) (by norm_num) (by norm_num)
    rw [h2, hsi, hei] at h1
    have h3 : modalityScore [(1 : ℝ)] 0 2 = 1 := by
      simp only [modalityScore, pySlice]
      norm_num [npMean]
    rw [h3] at h1
    norm_num at h1

/-- A window shorter than two samples: `int(duration / interval)` is at
most 1 when `duration < 2 * interval` and the interval is positive. -/
theorem ratTrunc_le_one_of_lt_two (dur itv : ℚ) (hpos : 0 < itv)
    (hlt : dur < 2 * itv) : ratTrunc (dur / itv) ≤ 1 := by
  unfold ratTrunc
  split
  · have h2 : dur / itv < 2 := by
      rw [div_lt_iff₀ hpos]
      linarith
    have h3 : ⌊dur / itv⌋ < (2 : ℤ) := Int.floor_lt.mpr (by exact_mod_cast h2)
    omega
  · rename_i hneg
    have h3 : ⌈dur / itv⌉ ≤ (0 : ℤ) :=
      Int.ceil_le.mpr (by exact_mod_cast le_of_lt (lt_of_not_ge hneg))
    omega

/-- Candidate generation returns the empty list (instead of raising in
`range`) whenever the window is at most one sample wide. -/
theorem create_segments_empty_of_small_window (cfg : EngagementConfig)
    (combined_scores : List ℝ) (interval_seconds : ℚ) (hpos : 0 < interval_seconds)
    (hlt : cfg.segment_duration < 2 * interval_seconds) :
    create_segments_from_timeline cfg combined_scores interval_seconds = [] := by
  have hne : interval_seconds ≠ 0 := ne_of_gt hpos
  have hsp : ratTrunc (cfg.segment_duration / interval_seconds) ≤ 1 :=
    ratTrunc_le_one_of_lt_two _ _ hpos hlt
  have hstep : (ratTrunc (cfg.segment_duration / interval_seconds)).fdiv 2 ≤ 0 := by
    rw [Int.fdiv_eq_ediv _ (by norm_num : (0 : ℤ) ≤ 2)]
    omega
  simp only [create_segments_from_timeline]
  rw [if_neg hne, if_pos hstep]

/-- The per-segment scoring pass maps the empty candidate list to itself. -/
theorem calculate_segment_scores_nil (audio_scores visual_scores speech_scores : List ℝ)
    (interval_seconds : ℚ) :
    calculate_segment_scores [] audio_scores visual_scores speech_scores
      interval_seconds = [] := by
  rw [calculate_segment_scores]
  split <;> rfl

/-- The separation penalty maps the empty candidate list to itself. -/
theorem apply_separation_penalty_nil (cfg : EngagementConfig) :
    apply_separation_penalty cfg [] = [] := by
  rw [apply_separation_penalty, sortByScoreDesc, List.mergeSort_nil]
  rfl

/-- The distribution bonus maps the empty candidate list to itself. -/
theorem apply_distribution_bonus_nil (cfg : EngagementConfig) (total_duration : ℚ) :
    apply_distribution_bonus cfg [] total_duration = [] := by
  rw [apply_distribution_bonus]
  split <;> rfl

/-- C10: when the window is at most one sample wide (`duration <
2 * interval`, so the stride `windowLength // 2` is zero and Python's
`range` would raise `ValueError`), candidate generation returns `[]` via
the exception handler and `get_best_segments` returns `[]` rather than
propagating an exception. -/
theorem get_best_segments_empty_of_small_window :
    ∀ (cfg : EngagementConfig) (audio_scores visual_scores speech_scores : List ℝ)
      (duration : ℚ) (count : ℕ) (total_duration : Option ℚ) (interval_seconds : ℚ),
      0 < interval_seconds → duration < 2 * interval_seconds →
      create_segments_from_timeline { cfg with segment_duration := duration }
        (combine_scores { cfg with segment_duration := duration } audio_scores
          visual_scores speech_scores) interval_seconds = [] ∧
      (get_best_segments cfg audio_scores visual_scores speech_scores duration count
        total_duration interval_seconds).1 = [] := by
  intro cfg a v s dur count td itv hpos hlt
  have hcreate : ∀ cmb : List ℝ,
      create_segments_from_timeline { cfg with segment_duration := dur } cmb itv = [] :=
    fun cmb => create_segments_empty_of_small_window _ cmb itv hpos hlt
  refine ⟨hcreate _, ?_⟩
  show get_best_segments_core { cfg with segment_duration := dur } a v s count td itv = []
  simp only [get_best_segments_core]
  by_cases hc : combine_scores { cfg with segment_duration := dur } a v s = []
  · rw [if_pos hc]
  · rw [if_neg hc, hcreate, calculate_segment_scores_nil, apply_separation_penalty_nil]
    cases td with
    | none => simp [sortByScoreDesc, assignRanks, sortByStartAsc]
    | some t =>
      dsimp only
      by_cases ht : t = 0
      · rw [if_pos ht]
        simp [sortByScoreDesc, assignRanks, sortByStartAsc]
      · rw [if_neg ht, apply_distribution_bonus_nil]
        simp [sortByScoreDesc, assignRanks, sortByStartAsc]

/-- C10 witness: with the default configuration, empty timelines, duration
60 and interval 40 (window of one sample), both candidate generation and
the full call return the empty list. -/
theorem get_best_segments_empty_of_small_window_witness :
    create_segments_from_timeline { defaultEngagementConfig with segment_duration := (60 : ℚ) }
      (combine_scores { defaultEngagementConfig with segment_duration := (60 : ℚ) }
        [] [] []) 40 = [] ∧
    (get_best_segments defaultEngagementConfig [] [] [] 60 7 none 40).1 = [] :=
  get_best_segments_empty_of_small_window defaultEngagementConfig [] [] [] 60 7 none 40
    (by norm_num) (by norm_num)

/-- Candidate generation on an empty combined timeline yields no
candidates. -/
theorem create_segments_from_timeline_nil (cfg : EngagementConfig) (interval_seconds : ℚ) :
    create_segments_from_timeline cfg [] interval_seconds = [] := by
  simp only [create_segments_from_timeline]
  by_cases h0 : interval_seconds = 0
  · rw [if_pos h0]
  · rw [if_neg h0]
    split
    · rfl
    · rename_i hstep
      have hsp : 2 ≤ ratTrunc (cfg.segment_duration / interval_seconds) := by
        by_contra hlt
        push_neg at hlt
        apply hstep
        rw [Int.fdiv_eq_ediv _ (by norm_num : (0 : ℤ) ≤ 2)]
        omega
      have hstop : ¬ (0 : ℤ) <
          (([] : List ℝ).length : ℤ) - ratTrunc (cfg.segment_duration / interval_seconds) + 1 := by
        simp only [List.length_nil, Nat.cast_zero]
        omega
      rw [pyRange, pyRangeLen, if_neg hstop]
      simp

/-- The per-segment scoring pass preserves the number of candidates. -/
theorem calculate_segment_scores_length (segments : List VideoSegment)
    (audio_scores visual_scores speech_scores : List ℝ) (interval_seconds : ℚ) :
    (calculate_segment_scores segments audio_scores visual_scores speech_scores
      interval_seconds).length = segments.length := by
  rw [calculate_segment_scores]
  split
  · rfl
  · exact List.length_map _ _

/-- The separation penalty preserves the number of candidates. -/
theorem apply_separation_penalty_length (cfg : EngagementConfig)
    (segments : List VideoSegment) :
    (apply_separation_penalty cfg segments).length = segments.length := by
  rw [apply_separation_penalty]
  rw [(apply_separation_penalty_aux_rel cfg.min_separation cfg.overlap_penalty
    (sortByScoreDesc segments) []).length_eq]
  simp [sortByScoreDesc]

/-- The distribution bonus preserves the number of candidates. -/
theorem apply_distribution_bonus_length (cfg : EngagementConfig)
    (segments : List VideoSegment) (total_duration : ℚ) :
    (apply_distribution_bonus cfg segments total_duration).length = segments.length := by
  rw [apply_distribution_bonus]
  split
  · rfl
  · exact List.length_map _ _

/-- Sorting by score preserves the number of candidates. -/
theorem sortByScoreDesc_length (segments : List VideoSegment) :
    (sortByScoreDesc segments).length = segments.length := by
  simp [sortByScoreDesc]

/-- Chronological sorting preserves the number of candidates. -/
theorem sortByStartAsc_length (segments : List VideoSegment) :
    (sortByStartAsc segments).length = segments.length := by
  simp [sortByStartAsc]

/-- Rank assignment preserves the number of candidates. -/
theorem assignRanks_length (segments : List VideoSegment) :
    (assignRanks segments).length = segments.length := by
  simp [assignRanks, List.enum_length]

/-- The chronological sort produces a list sorted ascending by start
time. -/
theorem sortByStartAsc_sorted (l : List VideoSegment) :
    List.Sorted (fun x y : VideoSegment => x.start_time ≤ y.start_time)
      (sortByStartAsc l) := by
  have h := @List.sorted_mergeSort VideoSegment
    (fun a b => decide (a.start_time ≤ b.start_time))
    (fun a b c hab hbc =>
      decide_eq_true (le_trans (of_decide_eq_true hab) (of_decide_eq_true hbc)))
    (fun a b => by
      rcases le_total a.start_time b.start_time with h | h <;> simp [h]) l
  exact h.imp (fun hab => of_decide_eq_true hab)

/-- Ranks assigned to a list are exactly `1, 2, ..., length`. -/
theorem assignRanks_map_rank (l : List VideoSegment) :
    (assignRanks l).map (fun s => s.rank) = List.range' 1 l.length := by
  unfold assignRanks
  rw [List.map_map]
  rw [show ((fun s : VideoSegment => s.rank) ∘
      fun p : ℕ × VideoSegment => { p.2 with rank := p.1 + 1 }) =
      ((fun n => n + 1) ∘ Prod.fst) from rfl]
  rw [← List.map_map, List.enum_map_fst, List.range'_eq_map_range]
  apply List.map_congr_left
  intro a _
  omega

/-- Selection, ranking and chronological re-sort: the final list is sorted
by start time, has `min count l` elements, and its ranks are exactly a
permutation of `1..N`. -/
theorem final_stage_props (l : List VideoSegment) (count : ℕ) :
    List.Sorted (fun x y : VideoSegment => x.start_time ≤ y.start_time)
      (sortByStartAsc (assignRanks ((sortByScoreDesc l).take count))) ∧
    ((sortByStartAsc (assignRanks ((sortByScoreDesc l).take count))).map
      (fun s => s.rank)).Perm
      (List.range' 1
        (sortByStartAsc (assignRanks ((sortByScoreDesc l).take count))).length) := by
  refine ⟨sortByStartAsc_sorted _, ?_⟩
  have hperm : (sortByStartAsc (assignRanks ((sortByScoreDesc l).take count))).Perm
      (assignRanks ((sortByScoreDesc l).take count)) :=
    List.mergeSort_perm _ _
  have h1 := hperm.map (fun s : VideoSegment => s.rank)
  rw [assignRanks_map_rank] at h1
  have hlen : (sortByStartAsc (assignRanks ((sortByScoreDesc l).take count))).length =
      ((sortByScoreDesc l).take count).length := by
    rw [sortByStartAsc_length, assignRanks_length]
  rw [hlen]
  exact h1

/-- C1: the list returned by `get_best_segments` is sorted ascending by
start time, has length `min count (number of generated candidates)`, and
its rank fields are exactly a permutation of `1..N` where `N` is the
returned length. -/
theorem get_best_segments_sorted_length_ranks :
    ∀ (cfg : EngagementConfig) (audio_scores visual_scores speech_scores : List ℝ)
      (duration : ℚ) (count : ℕ) (total_duration : Option ℚ) (interval_seconds : ℚ),
      List.Sorted (fun x y : VideoSegment => x.start_time ≤ y.start_time)
        (get_best_segments cfg audio_scores visual_scores speech_scores duration count
          total_duration interval_seconds).1 ∧
      (get_best_segments cfg audio_scores visual_scores speech_scores duration count
          total_duration interval_seconds).1.length =
        min count (create_segments_from_timeline { cfg with segment_duration := duration }
          (combine_scores { cfg with segment_duration := duration } audio_scores
            visual_scores speech_scores) interval_seconds).length ∧
      ((get_best_segments cfg audio_scores visual_scores speech_scores duration count
          total_duration interval_seconds).1.map (fun s => s.rank)).Perm
        (List.range' 1 (get_best_segments cfg audio_scores visual_scores speech_scores
          duration count total_duration interval_seconds).1.length) := by
  intro cfg a v s dur count td itv
  have hfst : (get_best_segments cfg a v s dur count td itv).1 =
      get_best_segments_core { cfg with segment_duration := dur } a v s count td itv := rfl
  rw [hfst]
  by_cases hc : combine_scores { cfg with segment_duration := dur } a v s = []
  · have hcore : get_best_segments_core { cfg with segment_duration := dur }
        a v s count td itv = [] := by
      simp only [get_best_segments_core]
      rw [if_pos hc]
    have hcreate0 : create_segments_from_timeline { cfg with segment_duration := dur }
        (combine_scores { cfg with segment_duration := dur } a v s) itv = [] := by
      rw [hc]
      exact create_segments_from_timeline_nil _ _
    rw [hcore, hcreate0]
    exact ⟨List.sorted_nil, by simp, by simp [List.range']⟩
  · simp only [get_best_segments_core]
    rw [if_neg hc]
    cases td with
    | none =>
      dsimp only
      refine ⟨(final_stage_props _ count).1, ?_, (final_stage_props _ count).2⟩
      simp only [sortByStartAsc_length, assignRanks_length, List.length_take,
        sortByScoreDesc_length, apply_separation_penalty_length,
        calculate_segment_scores_length]
    | some t =>
      dsimp only
      by_cases ht : t = 0
      · rw [if_pos ht]
        refine ⟨(final_stage_props _ count).1, ?_, (final_stage_props _ count).2⟩
        simp only [sortByStartAsc_length, assignRanks_length, List.length_take,
          sortByScoreDesc_length, apply_separation_penalty_length,
          calculate_segment_scores_length]
      · rw [if_neg ht]
        refine ⟨(final_stage_props _ count).1, ?_, (final_stage_props _ count).2⟩
        simp only [sortByStartAsc_length, assignRanks_length, List.length_take,
          sortByScoreDesc_length, apply_distribution_bonus_length,
          apply_separation_penalty_length, calculate_segment_scores_length]

end Processo
